import Mathlib

/- Verification of the core of the aw peer-to-peer overlay networking
   library: the gossip broadcaster (src/broadcast/broadcast.go), the
   peer-address directory (dht package), the ping/pong discovery engine
   (src/pingpong/pingpong.go) and the authenticated handshake framing
   (src/handshake/handshake.go).

   Machine integers are modelled as Nat with explicit reduction modulo
   2^64 where the code converts to uint64; fallible operations return
   an explicit error value; the in-place mutation of Go is modelled by
   state passing (each operation returns the new state together with an
   optional error, so that the state on the error path is visible). -/

namespace Aw

/-! ## Byte-level primitives -/

/-- Byte strings; each entry stands for one byte. -/
abbrev Bytes := List Nat

/-- Little-endian encoding of a 64-bit unsigned integer, as produced by
binary.Write with binary.LittleEndian on a uint64 (the argument is reduced
modulo 2^64 by the byte extraction itself). -/
def u64le (n : Nat) : Bytes :=
  [n % 256, n / 256 % 256, n / 65536 % 256, n / 16777216 % 256,
   n / 4294967296 % 256, n / 1099511627776 % 256,
   n / 281474976710656 % 256, n / 72057594037927936 % 256]

/-- Little-endian decoding of a byte string into a natural number, as
performed by binary.Read on a uint64 (applied to exactly 8 bytes). -/
def decU64 (bs : Bytes) : Nat :=
  bs.foldr (fun b acc => acc * 256 + b) 0

/-! ## Shared protocol data model

The protocol package of the repository is not under src/; the pieces of
it that the core uses are modelled here from the spec. -/

/-- PeerAddress, from the spec data model: PeerID, an opaque
NetworkAddress used only as an outbound routing key, and a Nonce.
PeerID and NetworkAddress are opaque identifiers, modelled as Nat
(their canonical string forms are injective, so the Nat itself serves
as the map key that the code derives via String()). -/
structure PeerAddress where
  peerID : Nat
  networkAddress : Nat
  nonce : Nat
  deriving DecidableEq, Repr

/-- Modelled from the spec: protocol.PeerAddress.IsNewer compares nonces;
the higher nonce wins; a nil other address is always older. The protocol
package is not under src/. -/
def PeerAddress.IsNewer (a : PeerAddress) (other : Option PeerAddress) : Bool :=
  match other with
  | none => true
  | some b => b.nonce < a.nonce

/-- Message variants of the wire protocol. -/
inductive BVariant where
  | ping
  | pong
  | cast
  | broadcast
  deriving DecidableEq, Repr

/-- A protocol message: Version (V1 = 1), Variant, GroupID (used by
Broadcast) and Body. Modelled from the spec: Message.Hash() is a
deterministic fingerprint over the whole serialised record with a stable
string form used as a map key; it is treated as injective
(collision-free), so the message record itself stands for its hash. -/
structure BMessage where
  version : Nat
  variant : BVariant
  groupID : Nat
  body : Bytes
  deriving DecidableEq, Repr

/-- Message with Version V1, as built by protocol.NewMessage in
broadcaster.Broadcast. -/
def mkBroadcastMessage (groupID : Nat) (body : Bytes) : BMessage :=
  { version := 1, variant := .broadcast, groupID := groupID, body := body }

/-- Errors returned by the modelled operations. Constructors carry the
fields that the corresponding Go error values carry; kvRaw is a raw
key-value store error surfaced to a caller without wrapping. -/
inductive GoError where
  | ctxCanceled
  | broadcastInternal (cause : Nat)
  | kvRaw (cause : Nat)
  | broadcasting (groupID : Nat) (cause : GoError)
  | acceptingBroadcast (cause : GoError)
  | versionNotSupported (version : Nat)
  | variantNotSupported (variant : BVariant)
  | groupNotFound (groupID : Nat)
  | peerNotFound (peerID : Nat)
  | invalidGroupID
  | encodeFailure (peerID : Nat)
  | dhtInsertFailure (peerID : Nat)
  | dhtDeleteFailure (peerID : Nat)
  | decodeFailure
  | emptyPeerAddresses
  deriving DecidableEq, Repr

/-- Recogniser for the ErrBroadcastInternal wrapper. -/
def GoError.isBroadcastInternal : GoError → Bool
  | .broadcastInternal _ => true
  | _ => false

/-! ## Association-list maps

Go maps keyed by canonical strings are modelled as association lists
keyed by the underlying Nat identifier. -/

/-- Lookup in an association list (first binding wins). -/
def alGet {α : Type} : List (Nat × α) → Nat → Option α
  | [], _ => none
  | (k2, v) :: rest, k => if k2 = k then some v else alGet rest k

/-- Insert or replace a binding in an association list. -/
def alPut {α : Type} : List (Nat × α) → Nat → α → List (Nat × α)
  | [], k, v => [(k, v)]
  | (k2, v2) :: rest, k, v =>
    if k2 = k then (k, v) :: rest else (k2, v2) :: alPut rest k v

/-- Delete a binding from an association list. -/
def alDel {α : Type} : List (Nat × α) → Nat → List (Nat × α)
  | [], _ => []
  | (k2, v2) :: rest, k =>
    if k2 = k then alDel rest k else (k2, v2) :: alDel rest k

/-! ## Peer-address directory (dht package) -/

/-- Fault model for the directory collaborators: the peer-address codec
(Encode) and the persistent backing table (Insert and Delete), which are
the only fallible operations the dht calls. -/
structure DHTEnv where
  encodeFault : PeerAddress → Bool
  insertFault : Nat → Bool
  deleteFault : Nat → Bool

/-- State of the dht struct: the self address, the in-memory cache
(inMemCache), the decoded view of the persistent backing table (store)
and the group table (groups). -/
structure DHTState where
  me : PeerAddress
  cache : List (Nat × PeerAddress)
  backing : List (Nat × PeerAddress)
  groups : List (Nat × List Nat)
  deriving DecidableEq, Repr

/-- NilGroupID, the distinguished group identifier meaning all known
peers. -/
def nilGroupID : Nat := 0

/-- dht.addPeerAddressWithoutLock: encode the address (failure returns an
error and changes nothing), insert into the backing store (failure
returns an error and changes nothing), then update the in-memory cache.
dht.AddPeerAddress takes the exclusive lock and delegates here, so it is
the same function in this sequential model. -/
def dhtAddPeerAddressWithoutLock (env : DHTEnv) (s : DHTState) (a : PeerAddress) :
    DHTState × Option GoError :=
  if env.encodeFault a then (s, some (.encodeFailure a.peerID))
  else if env.insertFault a.peerID then (s, some (.dhtInsertFailure a.peerID))
  else ({ s with backing := alPut s.backing a.peerID a,
                 cache := alPut s.cache a.peerID a }, none)

/-- dht.PeerAddress: look the id up in the in-memory cache and return
ErrPeerNotFound when it is absent. -/
def dhtPeerAddress (s : DHTState) (peerID : Nat) : Except GoError PeerAddress :=
  match alGet s.cache peerID with
  | none => .error (.peerNotFound peerID)
  | some a => .ok a

/-- dht.PeerAddresses: a snapshot of all cached addresses (map iteration
order is unspecified in Go; the model fixes the list order). -/
def dhtPeerAddresses (s : DHTState) : List PeerAddress :=
  s.cache.map Prod.snd

/-- dht.UpdatePeerAddress: if an address is cached for the peer and the
incoming one is not newer, report no update; otherwise add the address
and report whether the add succeeded (the Go code returns err == nil
together with err). -/
def dhtUpdatePeerAddress (env : DHTEnv) (s : DHTState) (a : PeerAddress) :
    DHTState × Bool × Option GoError :=
  match alGet s.cache a.peerID with
  | some prev =>
    if ¬ a.IsNewer (some prev) then (s, false, none)
    else
      match dhtAddPeerAddressWithoutLock env s a with
      | (s2, none) => (s2, true, none)
      | (s2, some e) => (s2, false, some e)
  | none =>
    match dhtAddPeerAddressWithoutLock env s a with
    | (s2, none) => (s2, true, none)
    | (s2, some e) => (s2, false, some e)

/-- dht.RemovePeerAddress: delete from the backing store (failure returns
an error and changes nothing), then delete from the in-memory cache.
A missing address is not an error. -/
def dhtRemovePeerAddress (env : DHTEnv) (s : DHTState) (peerID : Nat) :
    DHTState × Option GoError :=
  if env.deleteFault peerID then (s, some (.dhtDeleteFailure peerID))
  else ({ s with backing := alDel s.backing peerID,
                 cache := alDel s.cache peerID }, none)

/-- dht.GroupIDs: NilGroupID resolves to every known PeerID; a named
group resolves to its stored member list (a copy) or ErrGroupNotFound. -/
def dhtGroupIDs (s : DHTState) (groupID : Nat) : Except GoError (List Nat) :=
  if groupID = nilGroupID then
    .ok ((dhtPeerAddresses s).map PeerAddress.peerID)
  else
    match alGet s.groups groupID with
    | none => .error (.groupNotFound groupID)
    | some ids => .ok ids

/-- The member-resolution loop of dht.GroupAddresses: self resolves to
the self address, other members resolve through the in-memory cache and
unknown members are skipped. -/
def groupResolveLoop (s : DHTState) : List Nat → List PeerAddress
  | [] => []
  | peerID :: rest =>
    if peerID = s.me.peerID then s.me :: groupResolveLoop s rest
    else
      match alGet s.cache peerID with
      | none => groupResolveLoop s rest
      | some a => a :: groupResolveLoop s rest

/-- dht.GroupAddresses: NilGroupID resolves to all cached addresses; a
named group resolves its member ids and then runs the resolution loop. -/
def dhtGroupAddresses (s : DHTState) (groupID : Nat) :
    Except GoError (List PeerAddress) :=
  if groupID = nilGroupID then .ok (dhtPeerAddresses s)
  else
    match dhtGroupIDs s groupID with
    | .error e => .error e
    | .ok ids => .ok (groupResolveLoop s ids)

/-! ## Gossip broadcaster (broadcast package) -/

/-- The dedup store (a kv.Table holding the hashes already seen) together
with a fault model for its Get and Insert calls: a fault carries the
error code the store would return. -/
structure BStore where
  seen : List BMessage
  getFault : BMessage → Option Nat
  insertFault : BMessage → Option Nat

/-- broadcaster state: the dedup store, the outbound message queue (the
messages channel) and the event queue. Event timestamps (time.Now) are
not modelled; an event is the (from, body) pair it carries. -/
structure BState where
  store : BStore
  outbound : List (PeerAddress × BMessage)
  events : List (Nat × Bytes)

/-- broadcaster.messageHashAlreadySeen: Get the hash from the store; a
kv.ErrKeyNotFound miss means not seen with no error; a store fault is
returned alongside a false flag (the decode target keeps its zero
value). -/
def messageHashAlreadySeen (st : BStore) (h : BMessage) : Bool × Option Nat :=
  match st.getFault h with
  | some c => (false, some c)
  | none => (decide (h ∈ st.seen), none)

/-- Insert of a message hash into the dedup store. -/
def storeInsert (st : BStore) (h : BMessage) : Except Nat BStore :=
  match st.insertFault h with
  | some c => .error c
  | none => .ok { st with seen := h :: st.seen }

/-- The fan-out of protocol.ParForAllAddresses, linearised: the worker
pool enqueues in an unspecified order, so the model fixes the input
order; per-target enqueue takes the context branch of its select when
the context is cancelled (the target is dropped and logged) and the nil
address guard is vacuous because the directory never yields one. -/
def fanOut (ctx : Bool) (addrs : List PeerAddress) (m : BMessage) :
    List (PeerAddress × BMessage) :=
  addrs.filterMap (fun dest => if ctx then none else some (dest, m))

/-- broadcaster.Broadcast: build the V1 Broadcast message, return early
on a seen hash (wrapping a store read failure in ErrBroadcastInternal),
resolve the group addresses, return ErrBroadcasting if the context is
already cancelled, insert the hash into the dedup store before dispatch
(an insert failure is returned to the caller unwrapped), then fan out.
ctx is true when the caller's context is cancelled. -/
def broadcast (d : DHTState) (ctx : Bool) (s : BState) (groupID : Nat) (body : Bytes) :
    BState × Option GoError :=
  let message := mkBroadcastMessage groupID body
  match messageHashAlreadySeen s.store message with
  | (_, some c) => (s, some (.broadcastInternal c))
  | (ok, none) =>
    if ok then (s, none)
    else
      match dhtGroupAddresses d groupID with
      | .error e => (s, some e)
      | .ok addrs =>
        if ctx then (s, some (.broadcasting groupID .ctxCanceled))
        else
          match storeInsert s.store message with
          | .error c => (s, some (.kvRaw c))
          | .ok store2 =>
            ({ s with store := store2,
                      outbound := s.outbound ++ fanOut ctx addrs message }, none)

/-- broadcaster.AcceptBroadcast: validate version and variant, return
early on a seen hash (wrapping a store read failure in
ErrBroadcastInternal), return ErrAcceptingBroadcast if the context is
cancelled (the two selects guarding the event emission collapse to one
check because the modelled context is constant), emit a MessageReceived
event, then re-enter Broadcast. -/
def acceptBroadcast (d : DHTState) (ctx : Bool) (s : BState) (sender : Nat)
    (m : BMessage) : BState × Option GoError :=
  if m.version ≠ 1 then (s, some (.versionNotSupported m.version))
  else if m.variant ≠ .broadcast then (s, some (.variantNotSupported m.variant))
  else
    match messageHashAlreadySeen s.store m with
    | (_, some c) => (s, some (.broadcastInternal c))
    | (ok, none) =>
      if ok then (s, none)
      else if ctx then (s, some (.acceptingBroadcast .ctxCanceled))
      else
        let s2 := { s with events := s.events ++ [(sender, m.body)] }
        broadcast d ctx s2 m.groupID m.body

/-! ## Ping/pong discovery engine (pingpong package)

Message bodies in this engine are peer addresses serialised by the
peer-address codec; the codec is modelled as the identity on
PeerAddress (it is injective and round-trip exact), with Bool fault
flags for its fallible Encode and Decode calls. -/

/-- Configuration of the pingPonger: the self address and the fault
model of its collaborators. -/
structure PPEnv where
  me : PeerAddress
  decodeFault : Bool
  encodeMeFault : Bool
  dhtEnv : DHTEnv

/-- Variants carried on the ping/pong outbound queue. -/
inductive PPVariant where
  | ping
  | pong
  deriving DecidableEq, Repr

/-- A MessageOnTheWire produced by the pingPonger: the destination
network address and the V1 message with its peer-address body. -/
structure PPWire where
  dest : Nat
  variant : PPVariant
  body : PeerAddress
  deriving DecidableEq, Repr

/-- pingPonger state: the directory, the outbound message queue and the
event queue (a PeerChanged event carries the peer address; time.Now is
not modelled). -/
structure PPState where
  dht : DHTState
  outbound : List PPWire
  events : List PeerAddress
  deriving DecidableEq, Repr

/-- pingPonger.updatePeerAddress: look the peer up via dht.PeerAddress
(an error, including ErrPeerNotFound for an unknown peer, is
propagated), keep the stored address when the incoming one is not
newer, otherwise dht.AddPeerAddress it and emit a PeerChanged event;
the event send honours cancellation. -/
def ppUpdatePeerAddress (env : PPEnv) (ctx : Bool) (s : PPState)
    (peerAddr : PeerAddress) : PPState × Bool × Option GoError :=
  match dhtPeerAddress s.dht peerAddr.peerID with
  | .error e => (s, false, some e)
  | .ok prev =>
    if ¬ peerAddr.IsNewer (some prev) then (s, false, none)
    else
      match dhtAddPeerAddressWithoutLock env.dhtEnv s.dht peerAddr with
      | (_, some e) => (s, false, some e)
      | (d2, none) =>
        if ctx then ({ s with dht := d2 }, false, some .ctxCanceled)
        else ({ s with dht := d2, events := s.events ++ [peerAddr] }, true, none)

/-- pingPonger.pong: encode the self address and enqueue a V1 Pong to
the network address of the given peer, honouring cancellation. -/
def ppPong (env : PPEnv) (ctx : Bool) (s : PPState) (dest : PeerAddress) :
    PPState × Option GoError :=
  if env.encodeMeFault then (s, some (.encodeFailure env.me.peerID))
  else if ctx then (s, some .ctxCanceled)
  else ({ s with outbound := s.outbound ++ [⟨dest.networkAddress, .pong, env.me⟩] },
        none)

/-- The per-target loop of pingPonger.propagatePing: each iteration
either records the cancellation error (overwriting the previous one) or
enqueues a V1 Ping carrying the original body; prior enqueues stand. -/
def propagateLoop (ctx : Bool) (body : PeerAddress) (addrs : List PeerAddress) :
    List PPWire × Option GoError :=
  addrs.foldl
    (fun acc a =>
      if ctx then (acc.1, some GoError.ctxCanceled)
      else (acc.1 ++ [⟨a.networkAddress, .ping, body⟩], acc.2))
    ([], none)

/-- pingPonger.propagatePing: snapshot every currently known peer
address (dht.PeerAddresses never fails and never returns nil in this
model), fail on an empty snapshot, then loop over the targets and
return the last error. -/
def propagatePing (ctx : Bool) (s : PPState) (body : PeerAddress) :
    PPState × Option GoError :=
  let peerAddrs := dhtPeerAddresses s.dht
  if peerAddrs.length = 0 then (s, some .emptyPeerAddresses)
  else
    match propagateLoop ctx body peerAddrs with
    | (ws, e) => ({ s with outbound := s.outbound ++ ws }, e)

/-- pingPonger.AcceptPing: decode the body as a peer address, update the
directory through pingPonger.updatePeerAddress (errors propagate),
return success when no update occurred, otherwise pong the sender and
propagate the ping to every currently known peer address. -/
def acceptPing (env : PPEnv) (ctx : Bool) (s : PPState) (body : PeerAddress) :
    PPState × Option GoError :=
  if env.decodeFault then (s, some .decodeFailure)
  else
    match ppUpdatePeerAddress env ctx s body with
    | (s1, _, some e) => (s1, some e)
    | (s1, didUpdate, none) =>
      if ¬ didUpdate then (s1, none)
      else
        match ppPong env ctx s1 body with
        | (s2, some e) => (s2, some e)
        | (s2, none) => propagatePing ctx s2 body

/-! ## Handshake engine (handshake package)

The byte streams of the io.ReadWriter are modelled explicitly; the
cryptographic primitives (the identity Signer/Verifier and the
ephemeral RSA keys) are abstract oracles supplied in the environment.
Verify is abstracted over the payload directly because the hash it is
applied to is deterministic in the payload. -/

/-- Handshake failure modes. -/
inductive HsError where
  | shortRead
  | signatureInvalid
  | sigLengthMismatch
  | challengeDecryptFailure
  | challengeMismatch
  deriving DecidableEq, Repr

/-- An RSA public key as the wire format carries it: the exponent E and
the big-endian bytes of the modulus N. -/
structure PubKey where
  e : Nat
  nBytes : Bytes
  deriving DecidableEq, Repr

/-- Environment of one handshake endpoint: the constant signature
length, the signing and verifying oracles of the identity
Signer/Verifier, the RSA encryption oracle (under a peer's public key),
the decryption oracle under the endpoint's own ephemeral private key,
and the 32 random challenge bytes drawn by rand.Read. -/
structure HsEnv where
  sigLength : Nat
  sign : Bytes → Bytes
  verify : Bytes → Bytes → Bool
  encrypt : PubKey → Bytes → Bytes
  decrypt : Bytes → Option Bytes
  challenge : Bytes

/-- binary.Read of a uint64: io.ReadFull semantics, so fewer than 8
available bytes is an error. -/
def binReadU64 (s : Bytes) : Except HsError (Nat × Bytes) :=
  if 8 ≤ s.length then .ok (decU64 (s.take 8), s.drop 8) else .error .shortRead

/-- A Read into a buffer of the given size with an exact-count check
(the readPubKey and readChallenge call sites error whenever the count
read differs from the requested size). -/
def readExact (s : Bytes) (size : Nat) : Except HsError (Bytes × Bytes) :=
  if size ≤ s.length then .ok (s.take size, s.drop size) else .error .shortRead

/-- A Read at the verifyAndStripSignature call site: the count check
there fires only together with a read error, and a byte source reports
an error only when it is empty, so a short read on a non-empty source
silently leaves the zero-initialised tail of the destination buffer. -/
def streamRead (s : Bytes) (size : Nat) : Except HsError (Bytes × Bytes) :=
  if s.isEmpty ∧ 0 < size then .error .shortRead
  else .ok (s.take size ++ List.replicate (size - s.length) 0, s.drop size)

/-- writePubKey: E as a 64-bit little-endian integer (the exponent is
non-negative, where int64 and uint64 encodings agree), the length of
the modulus bytes, then the modulus bytes. -/
def writePubKeyBytes (pk : PubKey) : Bytes :=
  u64le pk.e ++ u64le pk.nBytes.length ++ pk.nBytes

/-- readPubKey: read E, the modulus length and the modulus bytes from
the buffer. -/
def readPubKey (s : Bytes) : Except HsError (PubKey × Bytes) :=
  match binReadU64 s with
  | .error err => .error err
  | .ok (e, s1) =>
    match binReadU64 s1 with
    | .error err => .error err
    | .ok (size, s2) =>
      match readExact s2 size with
      | .error err => .error err
      | .ok (nb, s3) => .ok (⟨e, nb⟩, s3)

/-- writeChallenge: encrypt the challenge under the recipient's public
key and write the ciphertext length followed by the ciphertext. -/
def writeChallengeBytes (env : HsEnv) (challenge : Bytes) (pk : PubKey) : Bytes :=
  let enc := env.encrypt pk challenge
  u64le enc.length ++ enc

/-- readChallenge: read the ciphertext length and the ciphertext,
decrypt under the endpoint's own private key, and fail unless the
plaintext is exactly 32 bytes. -/
def readChallenge (env : HsEnv) (s : Bytes) : Except HsError (Bytes × Bytes) :=
  match binReadU64 s with
  | .error err => .error err
  | .ok (size, s1) =>
    match readExact s1 size with
    | .error err => .error err
    | .ok (enc, s2) =>
      match env.decrypt enc with
      | none => .error .challengeDecryptFailure
      | some ch =>
        if ch.length ≠ 32 then .error .challengeDecryptFailure else .ok (ch, s2)

/-- handshaker.signAndAppendSignature: drain the buffer, sign its
contents, and emit the frame consisting of the 64-bit little-endian
total length, the payload and the signature; the write-count check
fails when the signature length differs from SigLength(). -/
def signAndAppendSignature (env : HsEnv) (data : Bytes) : Except HsError Bytes :=
  let sig := env.sign data
  if sig.length ≠ env.sigLength then .error .sigLengthMismatch
  else .ok (u64le (data.length + env.sigLength) ++ data ++ sig)

/-- handshaker.verifyAndStripSignature: read the length, read that many
bytes, verify the signature over the leading length minus SigLength()
bytes, and pass on the stripped payload together with the rest of the
inbound stream. -/
def verifyAndStripSignature (env : HsEnv) (s : Bytes) :
    Except HsError (Bytes × Bytes) :=
  match binReadU64 s with
  | .error err => .error err
  | .ok (size, s1) =>
    match streamRead s1 size with
    | .error err => .error err
    | .ok (data, s2) =>
      let payload := data.take (size - env.sigLength)
      let sig := data.drop (size - env.sigLength)
      if env.verify payload sig then .ok (payload, s2) else .error .signatureInvalid

/-- handshaker.AcceptHandshake: verify and strip the initiator's first
frame, parse the initiator's public key from it, build the second frame
from the encrypted fresh challenge and the responder's own public key
(appended after any bytes left over in the buffer, exactly as the
shared bytes.Buffer leaves them), sign and send it, then verify and
strip the initiator's reply frame, decrypt the challenge reply, and
succeed iff it matches the original challenge byte-for-byte. respPub is
the public half of the freshly generated RSA key whose private half
backs env.decrypt. On success the returned value is the frame the
responder wrote. -/
def acceptHandshake (env : HsEnv) (respPub : PubKey) (stream : Bytes) :
    Except HsError Bytes :=
  match verifyAndStripSignature env stream with
  | .error err => .error err
  | .ok (payload1, stream1) =>
    match readPubKey payload1 with
    | .error err => .error err
    | .ok (initPub, buf1) =>
      let buf2 := buf1 ++ writeChallengeBytes env env.challenge initPub
                       ++ writePubKeyBytes respPub
      match signAndAppendSignature env buf2 with
      | .error err => .error err
      | .ok frame2 =>
        match verifyAndStripSignature env stream1 with
        | .error err => .error err
        | .ok (payload3, _) =>
          match readChallenge env payload3 with
          | .error err => .error err
          | .ok (reply, _) =>
            if env.challenge ≠ reply then .error .challengeMismatch
            else .ok frame2

/-! ## Concrete instances used by the evaluation and witness theorems -/

/-- A directory collaborator environment in which no collaborator
fails. -/
def dhtEnvNoFault : DHTEnv := ⟨fun _ => false, fun _ => false, fun _ => false⟩

/-- An environment whose backing-store insert always fails. -/
def envInsFault : DHTEnv := ⟨fun _ => false, fun _ => true, fun _ => false⟩

/-- An environment whose backing-store delete always fails. -/
def envDelFault : DHTEnv := ⟨fun _ => false, fun _ => false, fun _ => true⟩

/-- The self address of the sample node. -/
def selfAddr : PeerAddress := ⟨0, 10, 0⟩

/-- A sample peer address. -/
def peerOne : PeerAddress := ⟨1, 42, 5⟩

/-- An empty directory for the sample node. -/
def dhtEmpty : DHTState := ⟨selfAddr, [], [], []⟩

/-- A directory knowing peer 1 and a group 7 whose members are peer 1,
the unknown peer 3 and self. -/
def dhtOnePeer : DHTState :=
  ⟨selfAddr, [(1, peerOne)], [(1, peerOne)], [(7, [1, 3, 0])]⟩

/-- A fault-free pingPonger configuration for the sample node. -/
def ppEnvNoFault : PPEnv := ⟨selfAddr, false, false, dhtEnvNoFault⟩

/-- A pingPonger state over an empty directory. -/
def ppEmptyState : PPState := ⟨dhtEmpty, [], []⟩

/-- An empty fault-free dedup store. -/
def bstoreNoFault : BStore := ⟨[], fun _ => none, fun _ => none⟩

/-- A broadcaster state over the empty fault-free dedup store. -/
def bstateNoFault : BState := ⟨bstoreNoFault, [], []⟩

/-- A dedup store whose Get always fails with error code 3. -/
def bstoreGetFault : BStore := ⟨[], fun _ => some 3, fun _ => none⟩

/-- A broadcaster state over the Get-faulty dedup store. -/
def bstateGetFault : BState := ⟨bstoreGetFault, [], []⟩

/-- A dedup store whose Insert always fails with error code 7. -/
def bstoreInsFault : BStore := ⟨[], fun _ => none, fun _ => some 7⟩

/-- A broadcaster state over the Insert-faulty dedup store. -/
def bstateInsFault : BState := ⟨bstoreInsFault, [], []⟩

/-- A fault-free dedup store that has already seen the given message. -/
def bstateSeen (m : BMessage) : BState :=
  ⟨⟨[m], fun _ => none, fun _ => none⟩, [], []⟩

/-- A toy handshake environment: signatures are the single byte 9,
verification accepts exactly that signature, encryption and decryption
are the identity, and the challenge is 32 zero bytes. -/
def hsEnvId : HsEnv :=
  ⟨1, fun _ => [9], fun _ sig => sig == [9], fun _ ch => ch,
   fun encd => some encd, List.replicate 32 0⟩

/-- A sample initiator public key. -/
def initPubSample : PubKey := ⟨7, [6]⟩

/-- A sample responder public key. -/
def respPubSample : PubKey := ⟨3, [5]⟩

/-- The first-frame payload of the sample run: the serialised initiator
public key. -/
def p1Sample : Bytes := writePubKeyBytes initPubSample

/-- A correct challenge-reply third-frame payload for hsEnvId. -/
def p3Good : Bytes := u64le 32 ++ (List.replicate 32 0 ++ [])

/-- A third-frame payload whose reply differs from the challenge in
every byte. -/
def p3Bad : Bytes := u64le 32 ++ (List.replicate 32 1 ++ [])

/-- The full inbound stream of a successful sample responder run. -/
def streamGood : Bytes :=
  u64le (p1Sample.length + hsEnvId.sigLength)
    ++ (p1Sample ++ ([9] ++ (u64le (p3Good.length + hsEnvId.sigLength)
    ++ (p3Good ++ ([9] ++ [])))))

/-- The full inbound stream of a sample responder run whose challenge
reply is wrong. -/
def streamBad : Bytes :=
  u64le (p1Sample.length + hsEnvId.sigLength)
    ++ (p1Sample ++ ([9] ++ (u64le (p3Bad.length + hsEnvId.sigLength)
    ++ (p3Bad ++ ([9] ++ [])))))

/-! ## Association-list lemmas -/

/-- Looking up a key right after putting it yields the put value. -/
theorem alGet_alPut_self {α : Type} (l : List (Nat × α)) (k : Nat) (v : α) :
    alGet (alPut l k v) k = some v := by
  induction l with
  | nil => simp [alPut, alGet]
  | cons h t ih =>
    obtain ⟨k2, v2⟩ := h
    by_cases hk : k2 = k
    · simp [alPut, hk, alGet]
    · simp [alPut, hk, alGet, ih]

/-! ## Directory theorems -/

/-- C5. For peer addresses a and b of the same peer with a holding the
strictly higher nonce, starting from a directory in which the peer is
absent and whose collaborators do not fail, updating with b and then a
leaves the directory (both the in-memory cache and the backing view)
holding a, and updating with a and then b also leaves it holding a:
the higher nonce always wins and an absent stored address is treated
as older than anything. -/
theorem dht_higher_nonce_wins (env : DHTEnv) (s : DHTState) (a b : PeerAddress)
    (hid : b.peerID = a.peerID) (hnonce : b.nonce < a.nonce)
    (habsent : alGet s.cache a.peerID = none)
    (hea : env.encodeFault a = false) (heb : env.encodeFault b = false)
    (hia : env.insertFault a.peerID = false) :
    (alGet (dhtUpdatePeerAddress env (dhtUpdatePeerAddress env s b).1 a).1.cache
        a.peerID = some a ∧
     alGet (dhtUpdatePeerAddress env (dhtUpdatePeerAddress env s b).1 a).1.backing
        a.peerID = some a) ∧
    (alGet (dhtUpdatePeerAddress env (dhtUpdatePeerAddress env s a).1 b).1.cache
        a.peerID = some a ∧
     alGet (dhtUpdatePeerAddress env (dhtUpdatePeerAddress env s a).1 b).1.backing
        a.peerID = some a) := by
  have hib : env.insertFault b.peerID = false := by rw [hid]; exact hia
  have habsentb : alGet s.cache b.peerID = none := by rw [hid]; exact habsent
  constructor
  · -- insert b, then a
    have h1 : dhtUpdatePeerAddress env s b =
        ({ s with backing := alPut s.backing b.peerID b,
                  cache := alPut s.cache b.peerID b }, true, none) := by
      unfold dhtUpdatePeerAddress
      rw [habsentb]
      simp [dhtAddPeerAddressWithoutLock, heb, hib]
    rw [h1]
    unfold dhtUpdatePeerAddress
    have h2 : alGet (alPut s.cache b.peerID b) a.peerID = some b := by
      rw [hid]; exact alGet_alPut_self ..
    rw [h2]
    simp [PeerAddress.IsNewer, hnonce, dhtAddPeerAddressWithoutLock, hea, hia,
      alGet_alPut_self]
  · -- insert a, then b
    have h1 : dhtUpdatePeerAddress env s a =
        ({ s with backing := alPut s.backing a.peerID a,
                  cache := alPut s.cache a.peerID a }, true, none) := by
      unfold dhtUpdatePeerAddress
      rw [habsent]
      simp [dhtAddPeerAddressWithoutLock, hea, hia]
    rw [h1]
    unfold dhtUpdatePeerAddress
    have h2 : alGet (alPut s.cache a.peerID a) b.peerID = some a := by
      rw [hid]; exact alGet_alPut_self ..
    rw [h2]
    have hnot : ¬ (a.nonce < b.nonce) := by omega
    simp [PeerAddress.IsNewer, hnot, alGet_alPut_self]

/-- Witness for C5: concrete addresses for peer 1 with nonces 5 and 9 in
the empty directory. -/
theorem dht_higher_nonce_wins_witness :
    (alGet (dhtUpdatePeerAddress dhtEnvNoFault
        (dhtUpdatePeerAddress dhtEnvNoFault dhtEmpty ⟨1, 42, 5⟩).1
        ⟨1, 42, 9⟩).1.cache 1 = some ⟨1, 42, 9⟩ ∧
     alGet (dhtUpdatePeerAddress dhtEnvNoFault
        (dhtUpdatePeerAddress dhtEnvNoFault dhtEmpty ⟨1, 42, 5⟩).1
        ⟨1, 42, 9⟩).1.backing 1 = some ⟨1, 42, 9⟩) ∧
    (alGet (dhtUpdatePeerAddress dhtEnvNoFault
        (dhtUpdatePeerAddress dhtEnvNoFault dhtEmpty ⟨1, 42, 9⟩).1
        ⟨1, 42, 5⟩).1.cache 1 = some ⟨1, 42, 9⟩ ∧
     alGet (dhtUpdatePeerAddress dhtEnvNoFault
        (dhtUpdatePeerAddress dhtEnvNoFault dhtEmpty ⟨1, 42, 9⟩).1
        ⟨1, 42, 5⟩).1.backing 1 = some ⟨1, 42, 9⟩) :=
  dht_higher_nonce_wins dhtEnvNoFault dhtEmpty ⟨1, 42, 9⟩ ⟨1, 42, 5⟩
    rfl (by decide) rfl rfl rfl rfl

/-- C6. For a named (non-nil) group stored in the directory,
GroupAddresses returns exactly the resolvable members in member-list
order: self resolves to the self address whenever the self PeerID is a
member (even though self is not stored in the peer index), other
members resolve through the peer index, and unknown members are
silently skipped without error; in particular the self address is in
the result whenever self is a member. -/
theorem dht_groupAddresses_resolvable (s : DHTState) (g : Nat) (ids : List Nat)
    (hg : ¬ g = nilGroupID) (hids : alGet s.groups g = some ids) :
    dhtGroupAddresses s g = .ok (ids.filterMap (fun peerID =>
        if peerID = s.me.peerID then some s.me else alGet s.cache peerID)) ∧
    (s.me.peerID ∈ ids → s.me ∈ ids.filterMap (fun peerID =>
        if peerID = s.me.peerID then some s.me else alGet s.cache peerID)) := by
  have hloop : ∀ ids2 : List Nat, groupResolveLoop s ids2
      = ids2.filterMap (fun peerID =>
          if peerID = s.me.peerID then some s.me else alGet s.cache peerID) := by
    intro ids2
    induction ids2 with
    | nil => rfl
    | cons i t ih =>
      by_cases hi : i = s.me.peerID
      · simp [groupResolveLoop, hi, ih]
      · cases hc : alGet s.cache i <;> simp [groupResolveLoop, hi, hc, ih]
  constructor
  · simp [dhtGroupAddresses, hg, dhtGroupIDs, hids, hloop]
  · intro hmem
    exact List.mem_filterMap.mpr ⟨s.me.peerID, hmem, by simp⟩

/-- Witness for C6: group 7 of dhtOnePeer has members peer 1 (known),
peer 3 (unknown, skipped) and peer 0 (self, always included). -/
theorem dht_groupAddresses_resolvable_witness :
    dhtGroupAddresses dhtOnePeer 7 = .ok ([1, 3, 0].filterMap (fun peerID =>
        if peerID = dhtOnePeer.me.peerID then some dhtOnePeer.me
        else alGet dhtOnePeer.cache peerID)) ∧
    (dhtOnePeer.me.peerID ∈ [1, 3, 0] →
      dhtOnePeer.me ∈ [1, 3, 0].filterMap (fun peerID =>
        if peerID = dhtOnePeer.me.peerID then some dhtOnePeer.me
        else alGet dhtOnePeer.cache peerID)) :=
  dht_groupAddresses_resolvable dhtOnePeer 7 [1, 3, 0] (by decide) rfl

/-- C7. The in-memory index is mutated only after the backing-store
write succeeded: a failed add or remove returns the state unchanged
(both views), and a successful add or remove updates the cache and the
backing view together, so the two views never disagree after a failed
mutation. -/
theorem dht_mutation_fail_preserves_views (env : DHTEnv) (s : DHTState)
    (a : PeerAddress) (peerID : Nat) :
    (∀ s2 e, dhtAddPeerAddressWithoutLock env s a = (s2, some e) → s2 = s) ∧
    (∀ s2 e, dhtRemovePeerAddress env s peerID = (s2, some e) → s2 = s) ∧
    (∀ s2, dhtAddPeerAddressWithoutLock env s a = (s2, none) →
        s2.cache = alPut s.cache a.peerID a ∧
        s2.backing = alPut s.backing a.peerID a) ∧
    (∀ s2, dhtRemovePeerAddress env s peerID = (s2, none) →
        s2.cache = alDel s.cache peerID ∧
        s2.backing = alDel s.backing peerID) := by
  refine ⟨?_, ?_, ?_, ?_⟩
  · intro s2 e heq
    unfold dhtAddPeerAddressWithoutLock at heq
    split at heq
    · exact (Prod.mk.injEq .. ▸ heq).1.symm
    · split at heq
      · exact (Prod.mk.injEq .. ▸ heq).1.symm
      · simp at heq
  · intro s2 e heq
    unfold dhtRemovePeerAddress at heq
    split at heq
    · exact (Prod.mk.injEq .. ▸ heq).1.symm
    · simp at heq
  · intro s2 heq
    unfold dhtAddPeerAddressWithoutLock at heq
    split at heq
    · simp at heq
    · split at heq
      · simp at heq
      · have hs := (Prod.mk.injEq .. ▸ heq).1
        rw [← hs]
        exact ⟨rfl, rfl⟩
  · intro s2 heq
    unfold dhtRemovePeerAddress at heq
    split at heq
    · simp at heq
    · have hs := (Prod.mk.injEq .. ▸ heq).1
      rw [← hs]
      exact ⟨rfl, rfl⟩

/-- Witness for C7: a failing insert and a failing delete leave the
directory of the sample node untouched, and a fault-free insert updates
both views. -/
theorem dht_mutation_fail_preserves_views_witness :
    (dhtAddPeerAddressWithoutLock envInsFault dhtOnePeer peerOne).1 = dhtOnePeer ∧
    (dhtRemovePeerAddress envDelFault dhtOnePeer 1).1 = dhtOnePeer ∧
    ((dhtAddPeerAddressWithoutLock dhtEnvNoFault dhtOnePeer peerOne).1.cache
        = alPut dhtOnePeer.cache peerOne.peerID peerOne ∧
     (dhtAddPeerAddressWithoutLock dhtEnvNoFault dhtOnePeer peerOne).1.backing
        = alPut dhtOnePeer.backing peerOne.peerID peerOne) :=
  ⟨(dht_mutation_fail_preserves_views envInsFault dhtOnePeer peerOne 1).1
      (dhtAddPeerAddressWithoutLock envInsFault dhtOnePeer peerOne).1
      (.dhtInsertFailure 1) rfl,
   (dht_mutation_fail_preserves_views envDelFault dhtOnePeer peerOne 1).2.1
      (dhtRemovePeerAddress envDelFault dhtOnePeer 1).1
      (.dhtDeleteFailure 1) rfl,
   (dht_mutation_fail_preserves_views dhtEnvNoFault dhtOnePeer peerOne 1).2.2.1
      (dhtAddPeerAddressWithoutLock dhtEnvNoFault dhtOnePeer peerOne).1 rfl⟩

/-! ## Broadcaster theorems -/

/-- With a live context the fan-out enqueues one wire message per
address, in order. -/
theorem fanOut_false (addrs : List PeerAddress) (m : BMessage) :
    fanOut false addrs m = addrs.map (fun dest => (dest, m)) := by
  induction addrs with
  | nil => rfl
  | cons a t ih => simp [fanOut] at ih ⊢; exact ih

/-- Broadcast on a hash the dedup store has already seen is a no-op
returning success. -/
theorem broadcast_seen_noop (d : DHTState) (ctx : Bool) (s : BState) (g : Nat)
    (b : Bytes)
    (hget : s.store.getFault (mkBroadcastMessage g b) = none)
    (hseen : mkBroadcastMessage g b ∈ s.store.seen) :
    broadcast d ctx s g b = (s, none) := by
  have hm : messageHashAlreadySeen s.store (mkBroadcastMessage g b)
      = (true, none) := by
    simp [messageHashAlreadySeen, hget, hseen]
  simp only [broadcast]
  rw [hm]
  exact rfl

/-- C2. Calling Broadcast twice in succession with the same group and
body produces outbound enqueues exactly once per address the directory
resolves for the group: the first call succeeds and appends one wire
message per resolved address, and the second call finds the message
hash in the dedup store, returns success and changes nothing (Broadcast
is idempotent per group and body). Hypotheses: the dedup store does not
fail on this hash, the hash is fresh, and the group resolves. -/
theorem broadcast_twice_enqueues_once (d : DHTState) (s : BState) (g : Nat)
    (b : Bytes) (addrs : List PeerAddress)
    (hget : s.store.getFault (mkBroadcastMessage g b) = none)
    (hins : s.store.insertFault (mkBroadcastMessage g b) = none)
    (hfresh : mkBroadcastMessage g b ∉ s.store.seen)
    (haddrs : dhtGroupAddresses d g = .ok addrs) :
    (broadcast d false s g b).2 = none ∧
    (broadcast d false s g b).1.outbound
      = s.outbound ++ addrs.map (fun dest => (dest, mkBroadcastMessage g b)) ∧
    broadcast d false (broadcast d false s g b).1 g b
      = ((broadcast d false s g b).1, none) := by
  have hm : messageHashAlreadySeen s.store (mkBroadcastMessage g b)
      = (false, none) := by
    simp [messageHashAlreadySeen, hget, hfresh]
  have h1 : broadcast d false s g b =
      ({ s with store := { s.store with seen := mkBroadcastMessage g b :: s.store.seen },
                outbound := s.outbound
                  ++ addrs.map (fun dest => (dest, mkBroadcastMessage g b)) }, none) := by
    simp only [broadcast]
    rw [hm, haddrs]
    simp [storeInsert, hins, fanOut_false]
  refine ⟨by rw [h1], by rw [h1], ?_⟩
  have hget2 : (broadcast d false s g b).1.store.getFault (mkBroadcastMessage g b)
      = none := by
    rw [h1]; exact hget
  have hseen2 : mkBroadcastMessage g b ∈ (broadcast d false s g b).1.store.seen := by
    rw [h1]; exact List.mem_cons_self ..
  exact broadcast_seen_noop d false (broadcast d false s g b).1 g b hget2 hseen2

/-- Witness for C2: group 7 of the sample directory (resolving to peer
1 and self) with body [1, 2] over the empty fault-free store. -/
theorem broadcast_twice_enqueues_once_witness :
    (broadcast dhtOnePeer false bstateNoFault 7 [1, 2]).2 = none ∧
    (broadcast dhtOnePeer false bstateNoFault 7 [1, 2]).1.outbound
      = bstateNoFault.outbound
        ++ [peerOne, selfAddr].map (fun dest => (dest, mkBroadcastMessage 7 [1, 2])) ∧
    broadcast dhtOnePeer false (broadcast dhtOnePeer false bstateNoFault 7 [1, 2]).1
        7 [1, 2]
      = ((broadcast dhtOnePeer false bstateNoFault 7 [1, 2]).1, none) :=
  broadcast_twice_enqueues_once dhtOnePeer bstateNoFault 7 [1, 2]
    [peerOne, selfAddr] rfl rfl (by simp [bstateNoFault, bstoreNoFault]) rfl

/-- C3. If the caller's context is already cancelled when Broadcast
runs on a fresh hash and the group resolves, Broadcast returns an
ErrBroadcasting carrying the group and the cancellation cause and the
state is unchanged: the hash is not inserted into the dedup store and
nothing is enqueued, because the cancellation check precedes the dedup
insert and the fan-out. -/
theorem broadcast_cancelled_unchanged (d : DHTState) (s : BState) (g : Nat)
    (b : Bytes) (addrs : List PeerAddress)
    (hget : s.store.getFault (mkBroadcastMessage g b) = none)
    (hfresh : mkBroadcastMessage g b ∉ s.store.seen)
    (haddrs : dhtGroupAddresses d g = .ok addrs) :
    broadcast d true s g b = (s, some (.broadcasting g .ctxCanceled)) := by
  have hm : messageHashAlreadySeen s.store (mkBroadcastMessage g b)
      = (false, none) := by
    simp [messageHashAlreadySeen, hget, hfresh]
  simp only [broadcast]
  rw [hm, haddrs]
  simp

/-- Witness for C3: a cancelled context on group 7 of the sample
directory with body [1, 2] over the empty fault-free store. -/
theorem broadcast_cancelled_unchanged_witness :
    broadcast dhtOnePeer true bstateNoFault 7 [1, 2]
      = (bstateNoFault, some (.broadcasting 7 .ctxCanceled)) :=
  broadcast_cancelled_unchanged dhtOnePeer bstateNoFault 7 [1, 2]
    [peerOne, selfAddr] rfl (by simp [bstateNoFault, bstoreNoFault]) rfl

/-- C10. For a well-formed V1 Broadcast message whose hash is already
in the dedup store, AcceptBroadcast returns success, emits no event and
enqueues nothing, for any context including an already cancelled one:
the duplicate check is performed before the cancellation check, so a
cancelled context never turns a duplicate delivery into an
ErrAcceptingBroadcast. -/
theorem acceptBroadcast_duplicate_success (d : DHTState) (ctx : Bool) (s : BState)
    (sender : Nat) (m : BMessage)
    (hv : m.version = 1) (hvar : m.variant = .broadcast)
    (hget : s.store.getFault m = none) (hseen : m ∈ s.store.seen) :
    acceptBroadcast d ctx s sender m = (s, none) := by
  have hm : messageHashAlreadySeen s.store m = (true, none) := by
    simp [messageHashAlreadySeen, hget, hseen]
  unfold acceptBroadcast
  rw [hm]
  simp [hv, hvar]

/-- Witness for C10: a duplicate V1 Broadcast under a cancelled context
over a store that has already seen it. -/
theorem acceptBroadcast_duplicate_success_witness :
    acceptBroadcast dhtOnePeer true (bstateSeen (mkBroadcastMessage 7 [1, 2])) 9
        (mkBroadcastMessage 7 [1, 2])
      = (bstateSeen (mkBroadcastMessage 7 [1, 2]), none) :=
  acceptBroadcast_duplicate_success dhtOnePeer true
    (bstateSeen (mkBroadcastMessage 7 [1, 2])) 9 (mkBroadcastMessage 7 [1, 2])
    rfl rfl rfl (by simp [bstateSeen])

/-- Counterexample to C4 as stated: a dedup-store I/O failure during the
insert-before-dispatch step of Broadcast is returned to the caller as
the raw store error, not as an ErrBroadcastInternal. -/
theorem broadcast_insert_fault_not_internal :
    (broadcast dhtEmpty false bstateInsFault nilGroupID []).2 = some (.kvRaw 7) ∧
    (GoError.kvRaw 7).isBroadcastInternal = false := by
  constructor
  · rfl
  · rfl

/-- C4 amended. Dedup-store read failures inside the seen-hash check are
returned as ErrBroadcastInternal carrying the cause, both in Broadcast
and in AcceptBroadcast; a dedup-store failure during the
insert-before-dispatch step of Broadcast, however, is returned to the
caller unwrapped (and reaches the caller of AcceptBroadcast unwrapped
through the re-entry into Broadcast). -/
theorem broadcast_store_failures (d : DHTState) (ctx : Bool) (s : BState)
    (g : Nat) (b : Bytes) (sender : Nat) (m : BMessage) (c : Nat)
    (addrs : List PeerAddress) :
    (s.store.getFault (mkBroadcastMessage g b) = some c →
        broadcast d ctx s g b = (s, some (.broadcastInternal c))) ∧
    (m.version = 1 → m.variant = .broadcast → s.store.getFault m = some c →
        acceptBroadcast d ctx s sender m = (s, some (.broadcastInternal c))) ∧
    (s.store.getFault (mkBroadcastMessage g b) = none →
        mkBroadcastMessage g b ∉ s.store.seen →
        dhtGroupAddresses d g = .ok addrs →
        s.store.insertFault (mkBroadcastMessage g b) = some c →
        broadcast d false s g b = (s, some (.kvRaw c))) := by
  refine ⟨?_, ?_, ?_⟩
  · intro hget
    have hm : messageHashAlreadySeen s.store (mkBroadcastMessage g b)
        = (false, some c) := by simp [messageHashAlreadySeen, hget]
    simp only [broadcast]
    rw [hm]
  · intro hv hvar hget
    unfold acceptBroadcast
    have hm : messageHashAlreadySeen s.store m = (false, some c) := by
      simp [messageHashAlreadySeen, hget]
    rw [hm]
    simp [hv, hvar]
  · intro hget hfresh haddrs hins
    have hm : messageHashAlreadySeen s.store (mkBroadcastMessage g b)
        = (false, none) := by simp [messageHashAlreadySeen, hget, hfresh]
    simp only [broadcast]
    rw [hm, haddrs]
    simp [storeInsert, hins]

/-- Witness for the amended C4: the Get-faulty store makes Broadcast and
AcceptBroadcast return ErrBroadcastInternal with cause 3, while the
Insert-faulty store makes Broadcast return the raw error with cause 7. -/
theorem broadcast_store_failures_witness :
    broadcast dhtEmpty false bstateGetFault nilGroupID []
      = (bstateGetFault, some (.broadcastInternal 3)) ∧
    acceptBroadcast dhtEmpty false bstateGetFault 9
        (mkBroadcastMessage nilGroupID [])
      = (bstateGetFault, some (.broadcastInternal 3)) ∧
    broadcast dhtEmpty false bstateInsFault nilGroupID []
      = (bstateInsFault, some (.kvRaw 7)) :=
  ⟨(broadcast_store_failures dhtEmpty false bstateGetFault nilGroupID [] 9
      (mkBroadcastMessage nilGroupID []) 3 []).1 rfl,
   (broadcast_store_failures dhtEmpty false bstateGetFault nilGroupID [] 9
      (mkBroadcastMessage nilGroupID []) 3 []).2.1 rfl rfl rfl,
   (broadcast_store_failures dhtEmpty false bstateInsFault nilGroupID [] 9
      (mkBroadcastMessage nilGroupID []) 7 []).2.2 rfl
      (by simp [bstateInsFault, bstoreInsFault]) rfl rfl⟩

/-! ## Ping/pong theorems -/

/-- C1 evaluated at its failing input: a Ping whose body decodes to the
address of peer 1, arriving at a node whose directory does not yet know
peer 1, makes AcceptPing return ErrPeerNotFound and leave the state
unchanged (nothing stored, no Pong sent, no ping propagated), because
pingPonger.updatePeerAddress propagates the lookup error of
dht.PeerAddress instead of treating an absent stored address as older
than anything. This contradicts the claim, under which the address is
stored, a Pong is sent and the ping is propagated. -/
theorem acceptPing_unknown_peer_fails :
    acceptPing ppEnvNoFault false ppEmptyState peerOne
      = (ppEmptyState, some (.peerNotFound 1)) := by decide

/-! ## Handshake theorems -/

/-- Decoding the little-endian encoding recovers the value modulo
2^64. -/
theorem decU64_u64le (n : Nat) : decU64 (u64le n) = n % 18446744073709551616 := by
  simp [decU64, u64le]
  omega

/-- The little-endian encoding is 8 bytes long. -/
theorem u64le_length (n : Nat) : (u64le n).length = 8 := rfl

/-- Reading a uint64 from the head of a stream that starts with its
encoding consumes exactly the encoding. -/
theorem binReadU64_append (n : Nat) (r : Bytes) :
    binReadU64 (u64le n ++ r) = .ok (n % 18446744073709551616, r) := by
  unfold binReadU64
  rw [if_pos]
  · rw [List.take_left' (u64le_length n), List.drop_left' (u64le_length n),
      decU64_u64le]
  · rw [List.length_append, u64le_length]
    omega

/-- A stream read of size bytes from a stream holding at least that
many bytes returns exactly those bytes. -/
theorem streamRead_of_le (s : Bytes) (size : Nat) (h : size ≤ s.length) :
    streamRead s size = .ok (s.take size, s.drop size) := by
  have h0 : size - s.length = 0 := Nat.sub_eq_zero_of_le h
  unfold streamRead
  rw [if_neg]
  · rw [h0]
    simp
  · rintro ⟨he, hpos⟩
    rw [List.isEmpty_iff] at he
    rw [he] at h
    simp at h
    omega

/-- Stripping a well-formed frame: on a stream beginning with the
length prefix, the payload and a signature of the declared length, the
receiver consumes exactly the frame and returns the payload iff the
signature verifies. -/
theorem verifyAndStrip_frame (env : HsEnv) (p sig rst : Bytes)
    (hsig : sig.length = env.sigLength)
    (hlen : p.length + env.sigLength < 18446744073709551616) :
    verifyAndStripSignature env
        (u64le (p.length + env.sigLength) ++ (p ++ (sig ++ rst)))
      = if env.verify p sig then .ok (p, rst) else .error .signatureInvalid := by
  have hsz : p.length + env.sigLength ≤ (p ++ (sig ++ rst)).length := by
    simp only [List.length_append, hsig]
    omega
  have htake : (p ++ (sig ++ rst)).take (p.length + env.sigLength) = p ++ sig := by
    rw [← List.append_assoc]
    exact List.take_left' (by simp [hsig])
  have hdrop : (p ++ (sig ++ rst)).drop (p.length + env.sigLength) = rst := by
    rw [← List.append_assoc]
    exact List.drop_left' (by simp [hsig])
  have hsub : p.length + env.sigLength - env.sigLength = p.length := by omega
  have htakep : (p ++ sig).take p.length = p := List.take_left ..
  have hdropp : (p ++ sig).drop p.length = sig := List.drop_left ..
  simp only [verifyAndStripSignature, binReadU64_append, Nat.mod_eq_of_lt hlen,
    streamRead_of_le _ _ hsz, htake, hdrop, hsub, htakep, hdropp]

/-- C9. Handshake framing round-trips: the sender emits the 64-bit
little-endian length, the payload and a signature of length SigLength()
over the payload, with length equal to payload length plus SigLength();
and on such a frame whose signature Verify accepts, the receiver
consumes exactly the frame, verifies the signature over the leading
length minus SigLength() bytes, and passes on exactly the payload,
leaving the rest of the stream untouched. -/
theorem handshake_frame_roundtrip (env : HsEnv) (p rst : Bytes)
    (hsig : (env.sign p).length = env.sigLength)
    (hver : env.verify p (env.sign p) = true)
    (hlen : p.length + env.sigLength < 18446744073709551616) :
    signAndAppendSignature env p
      = .ok (u64le (p.length + env.sigLength) ++ p ++ env.sign p) ∧
    verifyAndStripSignature env
        ((u64le (p.length + env.sigLength) ++ p ++ env.sign p) ++ rst)
      = .ok (p, rst) := by
  constructor
  · simp [signAndAppendSignature, hsig]
  · rw [List.append_assoc, List.append_assoc,
      verifyAndStrip_frame env p (env.sign p) rst hsig hlen, hver]
    simp

/-- Witness for C9: the toy environment with payload [1, 2] and a
trailing stream [7]. -/
theorem handshake_frame_roundtrip_witness :
    signAndAppendSignature hsEnvId [1, 2]
      = .ok (u64le (([1, 2] : Bytes).length + hsEnvId.sigLength)
          ++ [1, 2] ++ hsEnvId.sign [1, 2]) ∧
    verifyAndStripSignature hsEnvId
        ((u64le (([1, 2] : Bytes).length + hsEnvId.sigLength)
          ++ [1, 2] ++ hsEnvId.sign [1, 2]) ++ [7])
      = .ok ([1, 2], [7]) :=
  handshake_frame_roundtrip hsEnvId [1, 2] [7] rfl rfl (by decide)

/-- Reading a challenge from a payload that carries a well-formed
ciphertext frame: the outcome depends only on the decryption of the
ciphertext. -/
theorem readChallenge_frame (env : HsEnv) (enc tail : Bytes)
    (henc : enc.length < 18446744073709551616) :
    readChallenge env (u64le enc.length ++ (enc ++ tail))
      = match env.decrypt enc with
        | none => .error .challengeDecryptFailure
        | some ch =>
          if ch.length ≠ 32 then .error .challengeDecryptFailure
          else .ok (ch, tail) := by
  have hre : readExact (enc ++ tail) enc.length = .ok (enc, tail) := by
    unfold readExact
    rw [if_pos]
    · rw [List.take_left, List.drop_left]
    · simp
  simp only [readChallenge, binReadU64_append, Nat.mod_eq_of_lt henc, hre]

/-- C8. AcceptHandshake, run on an inbound stream carrying two
well-formed frames (the initiator's public key and the challenge
reply), completes without error if and only if both frame signatures
verify under the identity Signer/Verifier and the decrypted challenge
reply equals the responder's original 32 random challenge bytes
byte-for-byte; and whenever the signatures verify but the decrypted
32-byte reply differs from the challenge, the handshake fails with the
challenge-mismatch error. -/
theorem acceptHandshake_challenge (env : HsEnv) (respPub initPub : PubKey)
    (stream p1 s1 l1 p3 s3 enc tail3 rst : Bytes)
    (hch : env.challenge.length = 32)
    (hsignlen : ∀ d2 : Bytes, (env.sign d2).length = env.sigLength)
    (hs1 : s1.length = env.sigLength) (hs3 : s3.length = env.sigLength)
    (hl1 : p1.length + env.sigLength < 18446744073709551616)
    (hl3 : p3.length + env.sigLength < 18446744073709551616)
    (henc : enc.length < 18446744073709551616)
    (hp1 : readPubKey p1 = .ok (initPub, l1))
    (hp3 : p3 = u64le enc.length ++ (enc ++ tail3))
    (hstream : stream = u64le (p1.length + env.sigLength)
        ++ (p1 ++ (s1 ++ (u64le (p3.length + env.sigLength)
        ++ (p3 ++ (s3 ++ rst)))))) :
    ((∃ frameOut, acceptHandshake env respPub stream = .ok frameOut) ↔
      (env.verify p1 s1 = true ∧ env.verify p3 s3 = true ∧
       env.decrypt enc = some env.challenge)) ∧
    (∀ reply, env.verify p1 s1 = true → env.verify p3 s3 = true →
        env.decrypt enc = some reply → reply.length = 32 →
        reply ≠ env.challenge →
        acceptHandshake env respPub stream = .error .challengeMismatch) := by
  have hstrip1 := verifyAndStrip_frame env p1 s1
      (u64le (p3.length + env.sigLength) ++ (p3 ++ (s3 ++ rst))) hs1 hl1
  have hstrip3 := verifyAndStrip_frame env p3 s3 rst hs3 hl3
  have hrc : readChallenge env p3
      = match env.decrypt enc with
        | none => .error .challengeDecryptFailure
        | some ch =>
          if ch.length ≠ 32 then .error .challengeDecryptFailure
          else .ok (ch, tail3) := by
    rw [hp3]
    exact readChallenge_frame env enc tail3 henc
  have hsign2 : ∀ d2 : Bytes, signAndAppendSignature env d2
      = .ok (u64le (d2.length + env.sigLength) ++ d2 ++ env.sign d2) := by
    intro d2
    simp [signAndAppendSignature, hsignlen d2]
  by_cases hv1 : env.verify p1 s1 = true
  · by_cases hv3 : env.verify p3 s3 = true
    · -- both signatures verify: the outcome depends only on the reply
      have hacc : acceptHandshake env respPub stream
          = match env.decrypt enc with
            | none => .error .challengeDecryptFailure
            | some ch =>
              if ch.length ≠ 32 then .error .challengeDecryptFailure
              else if env.challenge ≠ ch then .error .challengeMismatch
              else .ok (u64le ((l1 ++ writeChallengeBytes env env.challenge initPub
                    ++ writePubKeyBytes respPub).length + env.sigLength)
                ++ (l1 ++ writeChallengeBytes env env.challenge initPub
                    ++ writePubKeyBytes respPub)
                ++ env.sign (l1 ++ writeChallengeBytes env env.challenge initPub
                    ++ writePubKeyBytes respPub)) := by
        rw [hstream]
        simp [acceptHandshake, hstrip1, hv1, hp1, hsign2, hstrip3, hv3, hrc]
        cases env.decrypt enc with
        | none => rfl
        | some ch => by_cases h32 : ch.length = 32 <;> simp [h32]
      cases hd : env.decrypt enc with
      | none =>
        refine ⟨⟨?_, ?_⟩, ?_⟩
        · rintro ⟨o, ho⟩
          rw [hacc, hd] at ho
          simp at ho
        · rintro ⟨h1, h3, hdec⟩
          simp at hdec
        · intro reply h1 h3 hdec h32r hne
          simp at hdec
      | some ch =>
        by_cases h32 : ch.length = 32
        · by_cases hceq : env.challenge = ch
          · -- the reply equals the challenge: success
            have hokeq : acceptHandshake env respPub stream
                = .ok (u64le ((l1 ++ writeChallengeBytes env env.challenge initPub
                      ++ writePubKeyBytes respPub).length + env.sigLength)
                  ++ (l1 ++ writeChallengeBytes env env.challenge initPub
                      ++ writePubKeyBytes respPub)
                  ++ env.sign (l1 ++ writeChallengeBytes env env.challenge initPub
                      ++ writePubKeyBytes respPub)) := by
              rw [hacc, hd]
              simp [h32, hceq]
            refine ⟨⟨?_, ?_⟩, ?_⟩
            · intro _
              exact ⟨hv1, hv3, by rw [hceq]⟩
            · intro _
              exact ⟨_, hokeq⟩
            · intro reply h1 h3 hdec h32r hne
              injection hdec with hh
              exact absurd (by rw [← hh, hceq]) hne
          · -- a 32-byte reply differing from the challenge: mismatch
            have herr : acceptHandshake env respPub stream
                = .error .challengeMismatch := by
              rw [hacc, hd]
              simp [h32, hceq]
            refine ⟨⟨?_, ?_⟩, ?_⟩
            · rintro ⟨o, ho⟩
              rw [herr] at ho
              simp at ho
            · rintro ⟨h1, h3, hdec⟩
              injection hdec with hh
              exact absurd hh.symm hceq
            · intro reply h1 h3 hdec h32r hne
              exact herr
        · -- the reply does not decrypt to 32 bytes
          have herr : acceptHandshake env respPub stream
              = .error .challengeDecryptFailure := by
            rw [hacc, hd]
            simp [h32]
          refine ⟨⟨?_, ?_⟩, ?_⟩
          · rintro ⟨o, ho⟩
            rw [herr] at ho
            simp at ho
          · rintro ⟨h1, h3, hdec⟩
            injection hdec with hh
            exact absurd (by rw [hh]; exact hch) h32
          · intro reply h1 h3 hdec h32r hne
            injection hdec with hh
            exact absurd (by rw [hh]; exact h32r) h32
    · -- the reply frame signature fails to verify
      have hv3f : env.verify p3 s3 = false := by
        revert hv3
        cases env.verify p3 s3 <;> simp
      have herr : acceptHandshake env respPub stream
          = .error .signatureInvalid := by
        rw [hstream]
        simp [acceptHandshake, hstrip1, hv1, hp1, hsign2, hstrip3, hv3f]
      refine ⟨⟨?_, ?_⟩, ?_⟩
      · rintro ⟨o, ho⟩
        rw [herr] at ho
        simp at ho
      · rintro ⟨h1, h3, _⟩
        exact absurd h3 hv3
      · intro reply h1 h3 hdec h32r hne
        exact absurd h3 hv3
  · -- the public-key frame signature fails to verify
    have hv1f : env.verify p1 s1 = false := by
      revert hv1
      cases env.verify p1 s1 <;> simp
    have herr : acceptHandshake env respPub stream
        = .error .signatureInvalid := by
      rw [hstream]
      simp [acceptHandshake, hstrip1, hv1f]
    refine ⟨⟨?_, ?_⟩, ?_⟩
    · rintro ⟨o, ho⟩
      rw [herr] at ho
      simp at ho
    · rintro ⟨h1, _, _⟩
      exact absurd h1 hv1
    · intro reply h1 h3 hdec h32r hne
      exact absurd h1 hv1

/-- Witness for C8: with the toy environment the well-formed stream
carrying the correct reply succeeds, and the stream whose 32-byte reply
differs from the challenge fails with the challenge-mismatch error. -/
theorem acceptHandshake_challenge_witness :
    (∃ frameOut, acceptHandshake hsEnvId respPubSample streamGood
        = .ok frameOut) ∧
    acceptHandshake hsEnvId respPubSample streamBad
        = .error .challengeMismatch :=
  ⟨(acceptHandshake_challenge hsEnvId respPubSample initPubSample
      streamGood p1Sample [9] [] p3Good [9] (List.replicate 32 0) [] []
      rfl (fun _ => rfl) rfl rfl (by decide) (by decide) (by decide)
      rfl rfl rfl).1.mpr ⟨rfl, rfl, rfl⟩,
   (acceptHandshake_challenge hsEnvId respPubSample initPubSample
      streamBad p1Sample [9] [] p3Bad [9] (List.replicate 32 1) [] []
      rfl (fun _ => rfl) rfl rfl (by decide) (by decide) (by decide)
      rfl rfl rfl).2 (List.replicate 32 1) rfl rfl rfl rfl (by decide)⟩

end Aw
